import Mathlib

/-!
# Verification of the Aviation Load Calculator placement core

Shallow embedding of `LoadCalc_CPP.cpp` (the single source file of the
repository) into Lean 4, together with theorems settling the frozen claims
about the program.

Modelling conventions:
* C++ `double` values (weights, arms, moments) are modelled as `ℚ`; all the
  properties proved here are structural (equalities between stored values and
  the expressions the program computes), not about rounding.
* C++ `int` is modelled as `Int` (all the integer quantities involved are
  small indices and catalog widths, far from any overflow).
* `std::vector<Slot>` with pointer access is modelled as a function
  `Nat → Slot` addressed by position, together with the explicit list of
  positions that mirrors the program's `freeSlots` pointer vector.
* `std::sort` (unstable) is modelled by the stable `List.insertionSort`,
  a permitted refinement of its unspecified tie order.
* `std::string::rfind(p, 0) == 0` ("p occurs at position 0") is modelled by
  `List.isPrefixOf` on the character lists of the strings.
-/

namespace LoadCalc

/-- Embeds `enum class SlotType { NORMAL, NOSE, TAIL }`. -/
inductive SlotType where
  | NORMAL
  | NOSE
  | TAIL
deriving DecidableEq, Repr

/-- Embeds `struct Slot` with its member initializers
(`deckName` empty, `index = 0`, `arm = 0.0`, `occupied = false`,
`occupantId` empty, `occupantWeight = 0.0`, `slotType = NORMAL`). -/
structure Slot where
  deckName : String := ""
  index : Int := 0
  arm : ℚ := 0
  occupied : Bool := false
  occupantId : String := ""
  occupantWeight : ℚ := 0
  slotType : SlotType := SlotType.NORMAL
deriving DecidableEq, Repr

/-- Embeds `ULD::Type { MAIN, LOWER, ANY }`. -/
inductive ULDType where
  | MAIN
  | LOWER
  | ANY
deriving DecidableEq, Repr

/-- Embeds `struct ULD`. -/
structure ULD where
  id : String := ""
  weight : ℚ := 0
  type : ULDType := ULDType.ANY
  allowSpecialSlots : Bool := true
deriving DecidableEq, Repr

/-- Embeds `struct ULDDBEntry`. The C++ field `prefix` is rendered `pfx`
(the original spelling is a reserved word here); defaults follow the member
initializers, in particular a missing catalog `Prefix` field is the empty
string and a missing width is `1`. -/
structure ULDDBEntry where
  pfx : String := ""
  uldType : String := ""
  widthSlots : Int := 1
  deck : String := "Any"
  notes : String := ""
deriving DecidableEq, Repr

/-- Embeds `struct Deck`. -/
structure Deck where
  slots : Int := 0
  rowLength : Int := 8
  slotArms : List ℚ := []
  noseSlots : Int := 0
  tailSlots : Int := 0
deriving DecidableEq, Repr

/-- Embeds `struct Aircraft`. -/
structure Aircraft where
  model : String := ""
  mainDeck : Deck := {}
  lowerDeck : Deck := {}
  mtw : Int := 0
deriving DecidableEq, Repr

/-- Embeds the test `uldId.rfind(e.prefix, 0) == 0`: the entry string occurs
at the very start of the unit identifier. -/
def strStartsWith (s p : String) : Bool :=
  p.data.isPrefixOf s.data

/-- Embeds `getULDWidth`: scan the catalog in order, return the width of the
first entry whose `prefix` starts the unit id, else default `1`. -/
def getULDWidth : List ULDDBEntry → String → Int
  | [], _ => 1
  | e :: db, uldId =>
      if strStartsWith uldId e.pfx then e.widthSlots else getULDWidth db uldId

/-- Embeds the clamp in `main` (`int uWidth = getULDWidth(ulddb, u.id);
if (uWidth <= 0) uWidth = 1;`): the width actually used for placement. -/
def resolvedWidth (db : List ULDDBEntry) (uldId : String) : Int :=
  let w := getULDWidth db uldId
  if w ≤ 0 then 1 else w

/-- Characterisation of `List.isPrefixOf` used to state prefix properties:
`p` starts `l` exactly when `l` extends `p` by some tail. -/
theorem isPrefixOf_iff_exists_append :
    ∀ (p l : List Char), p.isPrefixOf l = true ↔ ∃ t, l = p ++ t := by
  intro p
  induction p with
  | nil =>
      intro l
      simp [List.isPrefixOf]
  | cons a p ih =>
      intro l
      cases l with
      | nil => simp [List.isPrefixOf]
      | cons b l =>
          simp only [List.isPrefixOf, Bool.and_eq_true, beq_iff_eq, ih,
            List.cons_append, List.cons.injEq]
          constructor
          · rintro ⟨rfl, t, rfl⟩
            exact ⟨t, rfl, rfl⟩
          · rintro ⟨t, rfl, rfl⟩
            exact ⟨rfl, t, rfl⟩

example : getULDWidth [{ pfx := "LD", widthSlots := 2 },
    { pfx := "LD3", widthSlots := 1 }] "LD3001" = 2 := by decide

example : getULDWidth [] "LD3001" = 1 := by decide

/-! ## The placement engine state (`main`, lines 358--458) -/

/-- The mutable state of `main`'s placement loop: the slot storage (a
position-addressed view of `mainSlots ++ lowerSlots`), the `freeSlots`
pointer vector rendered as a list of positions, the running totals
`currentWeight` / `currentMoment`, and the `report` vector. -/
structure EngineState where
  slots : Nat → Slot
  freeSlots : List Nat
  currentWeight : ℚ
  currentMoment : ℚ
  report : List (String × String)

/-- Embeds the two `continue` filters of the candidate loop in `main`:
deck-affinity mismatch, and special (nose/tail) slots when disallowed. -/
def eligibleSlot (u : ULD) (s : Slot) : Bool :=
  if (u.type = ULDType.MAIN ∧ s.deckName ≠ "main") ∨
      (u.type = ULDType.LOWER ∧ s.deckName ≠ "lower") then false
  else if u.allowSpecialSlots = false ∧
      (s.slotType = SlotType.NOSE ∨ s.slotType = SlotType.TAIL) then false
  else true

/-- The comparison `a->index < b->index` handed to `std::sort`, as a
(non-strict, total) relation on positions; the unstable `std::sort` is
modelled by the stable `insertionSort` for this relation. -/
def slotIdxLE (slots : Nat → Slot) (p q : Nat) : Prop :=
  (slots p).index ≤ (slots q).index

instance (slots : Nat → Slot) : DecidableRel (slotIdxLE slots) := fun p q =>
  inferInstanceAs (Decidable ((slots p).index ≤ (slots q).index))

/-- Embeds the construction of `candidates` for one unit: filter `freeSlots`
by deck affinity and the special-slot flag, then sort ascending by `index`. -/
def candidatesOf (st : EngineState) (u : ULD) : List Nat :=
  List.insertionSort (slotIdxLE st.slots)
    (st.freeSlots.filter fun p => eligibleSlot u (st.slots p))

/-- Embeds the inner `consecutive` check: every adjacent pair of the run has
`index` increasing by exactly one. -/
def consecutiveRun (slots : Nat → Slot) : List Nat → Bool
  | [] => true
  | [_] => true
  | p :: q :: rest =>
      decide ((slots q).index = (slots p).index + 1) &&
        consecutiveRun slots (q :: rest)

/-- Embeds the search loop `for (size_t i = 0; i + uWidth <= candidates.size();
++i)`: return the first window of `w` candidates that is index-consecutive,
or `none`.  (Only ever called with `w ≥ 1`, as in the program.) -/
def findRun (slots : Nat → Slot) (w : Nat) : List Nat → Option (List Nat)
  | [] => none
  | c :: cs =>
      if w ≤ (c :: cs).length ∧ consecutiveRun slots ((c :: cs).take w) = true
      then some ((c :: cs).take w)
      else findRun slots w cs

/-- The run (list of slot positions) on which `main` places unit `u` in state
`st`, if any: the first index-consecutive window of `resolvedWidth` eligible
free slots. -/
def placedRun (db : List ULDDBEntry) (st : EngineState) (u : ULD) :
    Option (List Nat) :=
  findRun st.slots (resolvedWidth db u.id).toNat (candidatesOf st u)

/-- Embeds the placement loop `for (int w = 0; w < uWidth; ++w) { ... }`:
every slot of the run becomes occupied by `u` with weight share
`u.weight / uWidth`; all other slots are untouched. -/
def placeOn (u : ULD) (w : Int) (slots : Nat → Slot) (r : List Nat) :
    Nat → Slot := fun p =>
  if p ∈ r then
    { slots p with
        occupied := true
        occupantId := u.id
        occupantWeight := u.weight / (w : ℚ) }
  else slots p

/-- Embeds one iteration of `main`'s per-unit loop (lines 407--458): resolve
and clamp the width, build candidates, place on the first valid run (updating
slots, totals and the report) or record `UNASSIGNED`, then prune `freeSlots`
of occupied slots. -/
def processULD (db : List ULDDBEntry) (st : EngineState) (u : ULD) :
    EngineState :=
  let w := resolvedWidth db u.id
  match placedRun db st u with
  | some r =>
      let slots' := placeOn u w st.slots r
      let p0 := r.headD 0
      { slots := slots'
        freeSlots := st.freeSlots.filter fun p => (slots' p).occupied = false
        currentWeight := st.currentWeight + u.weight
        currentMoment := st.currentMoment + u.weight * (slots' p0).arm
        report := st.report ++
          [(u.id, (slots' p0).deckName ++ "[" ++
            toString ((slots' p0).index + 1) ++ "]")] }
  | none =>
      { st with
        freeSlots := st.freeSlots.filter fun p => (st.slots p).occupied = false
        report := st.report ++ [(u.id, "UNASSIGNED")] }

/-- The state `main` starts the placement loop from: `mainSlots` and
`lowerSlots` are freshly value-constructed vectors (every field at its
default — `assignSpecialSlots` is never invoked), `freeSlots` points at all
of them in order, totals zero, empty report. -/
def initState (m l : Nat) : EngineState where
  slots := fun _ => {}
  freeSlots := List.range (m + l)
  currentWeight := 0
  currentMoment := 0
  report := []

/-- The whole placement loop of `main`: fold `processULD` over the units in
input order, starting from `initState`. -/
def runEngine (db : List ULDDBEntry) (m l : Nat) (units : List ULD) :
    EngineState :=
  units.foldl (processULD db) (initState m l)

/-! ## `assignSpecialSlots` (lines 288--329) -/

/-- The slot vector that one branch of `assignSpecialSlots` builds for a deck:
position `i` gets the deck's name, index `i`, the `i`-th configured arm, and
slot type `NOSE` for the first `noseCnt` slots, `TAIL` for the last `tailCnt`,
`NORMAL` otherwise.  (The C++ reads `slotArms[i]` unguarded; `getD _ 0` stands
for that access, and the theorems below only use it with enough arms.) -/
def specialDeckSlots (deckName : String) (d : Deck) (noseCnt tailCnt : Int) :
    List Slot :=
  (List.range d.slots.toNat).map fun (i : Nat) =>
    { deckName := deckName
      index := (i : Int)
      arm := d.slotArms.getD i 0
      slotType :=
        if (i : Int) < noseCnt then SlotType.NOSE
        else if (i : Int) ≥ d.slots - tailCnt then SlotType.TAIL
        else SlotType.NORMAL }

/-- The local `mainSlots` vector of `assignSpecialSlots`
(`entryMainNoseSlots = entryMainTailSlots = 1` whenever the deck is
non-empty); the function never returns it. -/
def assignSpecialSlotsMainLocal (ac : Aircraft) : List Slot :=
  specialDeckSlots "main" ac.mainDeck
    (if ac.mainDeck.slots > 0 then 1 else 0)
    (if ac.mainDeck.slots > 0 then 1 else 0)

/-- The local `lowerSlots` vector of `assignSpecialSlots`; never returned. -/
def assignSpecialSlotsLowerLocal (ac : Aircraft) : List Slot :=
  specialDeckSlots "lower" ac.lowerDeck
    (if ac.lowerDeck.slots > 0 then 1 else 0)
    (if ac.lowerDeck.slots > 0 then 1 else 0)

/-- The net effect of `void assignSpecialSlots(Aircraft& ac)` on its
argument: the function builds two local slot vectors (see the two `Local`
definitions above), lets them go out of scope, and performs only the
self-assignments `ac.mainDeck.slotArms = ac.mainDeck.slotArms;` and
`ac.lowerDeck.slotArms = ac.lowerDeck.slotArms;`. -/
def assignSpecialSlots (ac : Aircraft) : Aircraft :=
  { ac with
      mainDeck := { ac.mainDeck with slotArms := ac.mainDeck.slotArms }
      lowerDeck := { ac.lowerDeck with slotArms := ac.lowerDeck.slotArms } }

/-! ## Spec-side definitions used to state the claims -/

/-- Validity of the window of `w` candidates starting at offset `i`, exactly
the condition the search loop tests there. -/
def validRunAt (slots : Nat → Slot) (w : Nat) (cands : List Nat) (i : Nat) :
    Prop :=
  i + w ≤ cands.length ∧ consecutiveRun slots ((cands.drop i).take w) = true

instance (slots : Nat → Slot) (w : Nat) (cands : List Nat) (i : Nat) :
    Decidable (validRunAt slots w cands i) :=
  inferInstanceAs (Decidable (_ ∧ _))

/-- A "valid contiguous run" for unit `u` in state `st`, as the spec
enumerates them: some window of `resolvedWidth` candidates, taken in
ascending-index order, that is index-consecutive. -/
def specValidRun (db : List ULDDBEntry) (st : EngineState) (u : ULD)
    (r : List Nat) : Prop :=
  ∃ i, validRunAt st.slots (resolvedWidth db u.id).toNat (candidatesOf st u) i ∧
    r = ((candidatesOf st u).drop i).take (resolvedWidth db u.id).toNat

/-- Modelled from the spec (§4.3 step 4): the score of a run is the absolute
deviation of the hypothetical resulting weighted mean arm — moment-so-far
plus the unit's weight spread evenly over the run's arms, divided by
weight-so-far plus the unit's weight — from the target reference arm. -/
def runScore (st : EngineState) (u : ULD) (target : ℚ) (r : List Nat) : ℚ :=
  |(st.currentMoment +
      u.weight * ((r.map fun p => (st.slots p).arm).sum / (r.length : ℚ))) /
    (st.currentWeight + u.weight) - target|

/-! ## Concrete example states -/

/-- A three-slot single-deck pool with arms `10, 20, 30` at indices
`0, 1, 2`, all free. -/
def exSlots3 : Nat → Slot := fun p =>
  if p = 0 then { index := 0, arm := 10 }
  else if p = 1 then { index := 1, arm := 20 }
  else if p = 2 then { index := 2, arm := 30 }
  else {}

/-- Engine state over `exSlots3` before any unit is processed. -/
def exState3 : EngineState where
  slots := exSlots3
  freeSlots := [0, 1, 2]
  currentWeight := 0
  currentMoment := 0
  report := []

/-- A width-1 unit of weight 100 with affinity `ANY`. -/
def exULD : ULD where
  id := "U"
  weight := 100
  type := ULDType.ANY
  allowSpecialSlots := true

example : placedRun [] exState3 exULD = some [0] := by decide

/-! ## Basic lemmas about the embedded operations -/

theorem one_le_resolvedWidth (db : List ULDDBEntry) (uldId : String) :
    1 ≤ resolvedWidth db uldId := by
  have h : resolvedWidth db uldId =
      if getULDWidth db uldId ≤ 0 then 1 else getULDWidth db uldId := rfl
  rw [h]
  split <;> omega

theorem one_le_resolvedWidth_toNat (db : List ULDDBEntry) (uldId : String) :
    1 ≤ (resolvedWidth db uldId).toNat := by
  have h := one_le_resolvedWidth db uldId
  omega

theorem placeOn_mem (u : ULD) (w : Int) (slots : Nat → Slot) (r : List Nat)
    (p : Nat) (h : p ∈ r) :
    placeOn u w slots r p =
      { slots p with
          occupied := true
          occupantId := u.id
          occupantWeight := u.weight / (w : ℚ) } := by
  simp [placeOn, h]

theorem placeOn_not_mem (u : ULD) (w : Int) (slots : Nat → Slot)
    (r : List Nat) (p : Nat) (h : p ∉ r) :
    placeOn u w slots r p = slots p := by
  simp [placeOn, h]

theorem placeOn_meta (u : ULD) (w : Int) (slots : Nat → Slot) (r : List Nat)
    (p : Nat) :
    (placeOn u w slots r p).deckName = (slots p).deckName ∧
    (placeOn u w slots r p).index = (slots p).index ∧
    (placeOn u w slots r p).arm = (slots p).arm ∧
    (placeOn u w slots r p).slotType = (slots p).slotType := by
  unfold placeOn
  split <;> simp

theorem placeOn_occupied_mono (u : ULD) (w : Int) (slots : Nat → Slot)
    (r : List Nat) (p : Nat) (h : (slots p).occupied = true) :
    (placeOn u w slots r p).occupied = true := by
  unfold placeOn
  split <;> simp [h]

theorem processULD_placed (db : List ULDDBEntry) (st : EngineState) (u : ULD)
    (r : List Nat) (h : placedRun db st u = some r) :
    processULD db st u =
      { slots := placeOn u (resolvedWidth db u.id) st.slots r
        freeSlots := st.freeSlots.filter fun p =>
          (placeOn u (resolvedWidth db u.id) st.slots r p).occupied = false
        currentWeight := st.currentWeight + u.weight
        currentMoment := st.currentMoment + u.weight *
          (placeOn u (resolvedWidth db u.id) st.slots r (r.headD 0)).arm
        report := st.report ++
          [(u.id,
            (placeOn u (resolvedWidth db u.id) st.slots r (r.headD 0)).deckName
              ++ "[" ++
              toString
                ((placeOn u (resolvedWidth db u.id) st.slots r
                  (r.headD 0)).index + 1) ++ "]")] } := by
  simp only [processULD, h]

theorem processULD_unplaced (db : List ULDDBEntry) (st : EngineState)
    (u : ULD) (h : placedRun db st u = none) :
    processULD db st u =
      { st with
          freeSlots := st.freeSlots.filter fun p =>
            (st.slots p).occupied = false
          report := st.report ++ [(u.id, "UNASSIGNED")] } := by
  simp only [processULD, h]

theorem processULD_occupied_mono (db : List ULDDBEntry) (st : EngineState)
    (u : ULD) (p : Nat) (h : (st.slots p).occupied = true) :
    ((processULD db st u).slots p).occupied = true := by
  rcases hr : placedRun db st u with _ | r
  · rw [processULD_unplaced db st u hr]
    exact h
  · rw [processULD_placed db st u r hr]
    exact placeOn_occupied_mono u _ st.slots r p h

theorem processULD_meta (db : List ULDDBEntry) (st : EngineState) (u : ULD)
    (p : Nat) :
    ((processULD db st u).slots p).deckName = (st.slots p).deckName ∧
    ((processULD db st u).slots p).index = (st.slots p).index ∧
    ((processULD db st u).slots p).arm = (st.slots p).arm ∧
    ((processULD db st u).slots p).slotType = (st.slots p).slotType := by
  rcases hr : placedRun db st u with _ | r
  · rw [processULD_unplaced db st u hr]
    exact ⟨rfl, rfl, rfl, rfl⟩
  · rw [processULD_placed db st u r hr]
    exact placeOn_meta u _ st.slots r p

theorem processULD_report (db : List ULDDBEntry) (st : EngineState)
    (u : ULD) :
    ∃ s, (processULD db st u).report = st.report ++ [(u.id, s)] := by
  rcases hr : placedRun db st u with _ | r
  · rw [processULD_unplaced db st u hr]
    exact ⟨_, rfl⟩
  · rw [processULD_placed db st u r hr]
    exact ⟨_, rfl⟩

/-! ## Characterisation of the run-search loop -/

theorem validRunAt_zero_cons (slots : Nat → Slot) (w : Nat) (c : Nat)
    (cs : List Nat) :
    validRunAt slots w (c :: cs) 0 ↔
      (w ≤ (c :: cs).length ∧
        consecutiveRun slots ((c :: cs).take w) = true) := by
  simp [validRunAt]

theorem validRunAt_succ_cons (slots : Nat → Slot) (w : Nat) (c : Nat)
    (cs : List Nat) (i : Nat) :
    validRunAt slots w (c :: cs) (i + 1) ↔ validRunAt slots w cs i := by
  unfold validRunAt
  rw [List.drop_succ_cons]
  constructor
  · rintro ⟨h1, h2⟩
    refine ⟨?_, h2⟩
    simp only [List.length_cons] at h1
    omega
  · rintro ⟨h1, h2⟩
    refine ⟨?_, h2⟩
    simp only [List.length_cons]
    omega

/-- `findRun` returns exactly the first valid window: the result is the
window at some offset `i`, valid there, and no smaller offset is valid. -/
theorem findRun_eq_some (slots : Nat → Slot) (w : Nat) :
    ∀ (cands r : List Nat), findRun slots w cands = some r →
      ∃ i, validRunAt slots w cands i ∧ r = (cands.drop i).take w ∧
        ∀ j, j < i → ¬ validRunAt slots w cands j := by
  intro cands
  induction cands with
  | nil => intro r h; simp [findRun] at h
  | cons c cs ih =>
      intro r h
      unfold findRun at h
      split at h
      · rename_i hcond
        refine ⟨0, ?_, ?_, ?_⟩
        · exact (validRunAt_zero_cons slots w c cs).mpr hcond
        · simpa using (Option.some.injEq _ _).mp h |>.symm
        · intro j hj; omega
      · rename_i hcond
        obtain ⟨i, hv, hr, hmin⟩ := ih r h
        refine ⟨i + 1, (validRunAt_succ_cons slots w c cs i).mpr hv, ?_, ?_⟩
        · rw [List.drop_succ_cons]; exact hr
        · intro j hj
          cases j with
          | zero =>
              rw [validRunAt_zero_cons]
              exact hcond
          | succ j' =>
              rw [validRunAt_succ_cons]
              exact hmin j' (by omega)

/-- If the loop finds no run (for a positive width, as the clamp
guarantees), no offset holds a valid window. -/
theorem findRun_eq_none (slots : Nat → Slot) (w : Nat) (hw : 1 ≤ w) :
    ∀ (cands : List Nat), findRun slots w cands = none →
      ∀ i, ¬ validRunAt slots w cands i := by
  intro cands
  induction cands with
  | nil =>
      intro _ i
      unfold validRunAt
      intro ⟨h1, _⟩
      simp only [List.length_nil] at h1
      omega
  | cons c cs ih =>
      intro h i
      unfold findRun at h
      split at h
      · exact absurd h (by simp)
      · rename_i hcond
        cases i with
        | zero => rw [validRunAt_zero_cons]; exact hcond
        | succ i' => rw [validRunAt_succ_cons]; exact ih h i'

theorem findRun_nil (slots : Nat → Slot) (w : Nat) :
    findRun slots w [] = none := rfl

theorem findRun_one_cons (slots : Nat → Slot) (c : Nat) (cs : List Nat) :
    findRun slots 1 (c :: cs) = some [c] := by
  simp [findRun, consecutiveRun]

/-! ## Candidate-list lemmas -/

theorem mem_candidatesOf (st : EngineState) (u : ULD) (p : Nat) :
    p ∈ candidatesOf st u ↔
      p ∈ st.freeSlots ∧ eligibleSlot u (st.slots p) = true := by
  unfold candidatesOf
  rw [List.mem_insertionSort, List.mem_filter]

theorem candidatesOf_nodup (st : EngineState) (u : ULD)
    (h : st.freeSlots.Nodup) : (candidatesOf st u).Nodup := by
  unfold candidatesOf
  rw [(List.perm_insertionSort (slotIdxLE st.slots) _).nodup_iff]
  exact h.filter _

theorem candidatesOf_sorted (st : EngineState) (u : ULD) :
    (candidatesOf st u).Sorted (slotIdxLE st.slots) := by
  haveI : IsTotal Nat (slotIdxLE st.slots) :=
    ⟨fun a b => Int.le_total (st.slots a).index (st.slots b).index⟩
  haveI : IsTrans Nat (slotIdxLE st.slots) :=
    ⟨fun a b c hab hbc => Int.le_trans hab hbc⟩
  exact List.sorted_insertionSort _ _

/-- A sort whose comparison always holds changes nothing (stable insertion
into an all-tied list keeps the original order). -/
theorem insertionSort_eq_self_of_total {α : Type} (r : α → α → Prop)
    [DecidableRel r] (h : ∀ a b, r a b) :
    ∀ l : List α, List.insertionSort r l = l := by
  intro l
  induction l with
  | nil => rfl
  | cons b l ih =>
      rw [List.insertionSort, ih]
      cases l with
      | nil => rfl
      | cons c l' => rw [List.orderedInsert, if_pos (h b c)]

/-! ## Run-wide invariants -/

/-- The free-slot pointer vector tracks occupancy exactly: it lists, in
order, the positions of the pool (of size `n`) whose slot is unoccupied. -/
def goodState (n : Nat) (st : EngineState) : Prop :=
  st.freeSlots = (List.range n).filter fun p => (st.slots p).occupied = false

/-- Every slot of the state still carries the default-constructed metadata
of `main`'s pool (empty deck name, index 0, arm 0, `NORMAL`). -/
def defaultMeta (st : EngineState) : Prop :=
  ∀ p, (st.slots p).deckName = "" ∧ (st.slots p).index = 0 ∧
    (st.slots p).arm = 0 ∧ (st.slots p).slotType = SlotType.NORMAL

theorem goodState_initState (m l : Nat) : goodState (m + l) (initState m l) := by
  unfold goodState initState
  simp

theorem defaultMeta_initState (m l : Nat) : defaultMeta (initState m l) := by
  intro p
  exact ⟨rfl, rfl, rfl, rfl⟩

theorem goodState_processULD (db : List ULDDBEntry) (n : Nat)
    (st : EngineState) (u : ULD) (h : goodState n st) :
    goodState n (processULD db st u) := by
  have hmono : ∀ p, (st.slots p).occupied = true →
      ((processULD db st u).slots p).occupied = true :=
    fun p hp => processULD_occupied_mono db st u p hp
  have hfree : (processULD db st u).freeSlots =
      st.freeSlots.filter fun p =>
        (((processULD db st u).slots) p).occupied = false := by
    rcases hr : placedRun db st u with _ | r
    · rw [processULD_unplaced db st u hr]
    · rw [processULD_placed db st u r hr]
  rw [goodState, hfree, h, List.filter_filter]
  apply List.filter_congr
  intro p _
  rcases hnew : ((processULD db st u).slots p).occupied with _ | _
  · simp only [hnew, decide_True, Bool.true_and]
    rcases hold : (st.slots p).occupied with _ | _
    · simp
    · exact absurd (hmono p hold) (by simp [hnew])
  · simp [hnew]

theorem defaultMeta_processULD (db : List ULDDBEntry) (st : EngineState)
    (u : ULD) (h : defaultMeta st) : defaultMeta (processULD db st u) := by
  intro p
  obtain ⟨h1, h2, h3, h4⟩ := processULD_meta db st u p
  obtain ⟨g1, g2, g3, g4⟩ := h p
  exact ⟨h1.trans g1, h2.trans g2, h3.trans g3, h4.trans g4⟩

/-- Fold invariant: a property preserved by every step (for units of the
list) holds after the whole placement loop. -/
theorem foldl_processULD_inv (db : List ULDDBEntry)
    (P : EngineState → Prop) :
    ∀ (units : List ULD) (st : EngineState), P st →
      (∀ s u, u ∈ units → P s → P (processULD db s u)) →
      P (units.foldl (processULD db) st) := by
  intro units
  induction units with
  | nil => intro st h _; exact h
  | cons u us ih =>
      intro st h hstep
      exact ih (processULD db st u)
        (hstep st u (List.mem_cons_self u us) h)
        (fun s v hv => hstep s v (List.mem_cons_of_mem u hv))

theorem goodState_runEngine (db : List ULDDBEntry) (m l : Nat)
    (units : List ULD) : goodState (m + l) (runEngine db m l units) :=
  foldl_processULD_inv db (goodState (m + l)) units (initState m l)
    (goodState_initState m l)
    (fun s u _ h => goodState_processULD db (m + l) s u h)

theorem defaultMeta_runEngine (db : List ULDDBEntry) (m l : Nat)
    (units : List ULD) : defaultMeta (runEngine db m l units) :=
  foldl_processULD_inv db defaultMeta units (initState m l)
    (defaultMeta_initState m l)
    (fun s u _ h => defaultMeta_processULD db s u h)

theorem freeSlots_nodup_runEngine (db : List ULDDBEntry) (m l : Nat)
    (units : List ULD) : (runEngine db m l units).freeSlots.Nodup := by
  rw [goodState_runEngine db m l units]
  exact (List.nodup_range (m + l)).filter _

/-- Unfolding one step of the run: the state after the first `k + 1` units
is one `processULD` past the state after the first `k`. -/
theorem runEngine_take_succ (db : List ULDDBEntry) (m l : Nat)
    (units : List ULD) (k : Nat) (h : k < units.length) :
    runEngine db m l (units.take (k + 1)) =
      processULD db (runEngine db m l (units.take k)) (units.get ⟨k, h⟩) := by
  unfold runEngine
  rw [List.take_succ, List.foldl_append, List.getElem?_eq_getElem h]
  rfl

/-! ## Placement on the default pool `main` actually builds -/

theorem eligibleSlot_any (u : ULD) (s : Slot) (hany : u.type = ULDType.ANY)
    (hnorm : s.slotType = SlotType.NORMAL) :
    eligibleSlot u s = true := by
  unfold eligibleSlot
  rw [if_neg, if_neg]
  · rw [hnorm]
    rintro ⟨-, h | h⟩ <;> simp at h
  · rw [hany]
    rintro (⟨h, -⟩ | ⟨h, -⟩) <;> simp at h

theorem eligibleSlot_main_default (u : ULD) (s : Slot)
    (hmain : u.type = ULDType.MAIN) (hdeck : s.deckName = "") :
    eligibleSlot u s = false := by
  unfold eligibleSlot
  rw [if_pos]
  left
  rw [hmain, hdeck]
  exact ⟨rfl, by simp⟩

theorem eligibleSlot_lower_default (u : ULD) (s : Slot)
    (hlower : u.type = ULDType.LOWER) (hdeck : s.deckName = "") :
    eligibleSlot u s = false := by
  unfold eligibleSlot
  rw [if_pos]
  right
  rw [hlower, hdeck]
  exact ⟨rfl, by simp⟩

theorem candidatesOf_any_defaultMeta (st : EngineState) (u : ULD)
    (hmeta : defaultMeta st) (hany : u.type = ULDType.ANY) :
    candidatesOf st u = st.freeSlots := by
  unfold candidatesOf
  rw [List.filter_eq_self.mpr
    (fun p _ => eligibleSlot_any u (st.slots p) hany (hmeta p).2.2.2)]
  exact insertionSort_eq_self_of_total _
    (fun p q => by
      unfold slotIdxLE
      rw [(hmeta p).2.1, (hmeta q).2.1])
    st.freeSlots

theorem candidatesOf_main_defaultMeta (st : EngineState) (u : ULD)
    (hmeta : defaultMeta st) (hmain : u.type = ULDType.MAIN) :
    candidatesOf st u = [] := by
  unfold candidatesOf
  have h : st.freeSlots.filter (fun p => eligibleSlot u (st.slots p)) = [] := by
    rw [List.filter_eq_nil_iff]
    intro p _
    rw [eligibleSlot_main_default u (st.slots p) hmain (hmeta p).1]
    simp
  rw [h]
  rfl

theorem candidatesOf_lower_defaultMeta (st : EngineState) (u : ULD)
    (hmeta : defaultMeta st) (hlower : u.type = ULDType.LOWER) :
    candidatesOf st u = [] := by
  unfold candidatesOf
  have h : st.freeSlots.filter (fun p => eligibleSlot u (st.slots p)) = [] := by
    rw [List.filter_eq_nil_iff]
    intro p _
    rw [eligibleSlot_lower_default u (st.slots p) hlower (hmeta p).1]
    simp
  rw [h]
  rfl

/-- With every slot at index 0 (the default pool), no window of width ≥ 2 is
ever index-consecutive, so the search fails. -/
theorem findRun_none_of_zero_index (slots : Nat → Slot)
    (hidx : ∀ p, (slots p).index = 0) (w : Nat) (hw : 2 ≤ w) :
    ∀ cands, findRun slots w cands = none := by
  intro cands
  induction cands with
  | nil => rfl
  | cons c cs ih =>
      unfold findRun
      rw [if_neg, ih]
      rintro ⟨hlen, hcons⟩
      obtain ⟨w', rfl⟩ : ∃ w', w = w' + 2 := ⟨w - 2, by omega⟩
      cases cs with
      | nil =>
          simp only [List.length_cons, List.length_nil] at hlen
          omega
      | cons c' cs' =>
          rw [List.take_succ_cons, List.take_succ_cons] at hcons
          unfold consecutiveRun at hcons
          rw [hidx c, hidx c'] at hcons
          simp at hcons

/-- On any state whose slots all carry the default metadata, a unit is
placed exactly when its clamped width is 1, its affinity is `ANY`, and the
free-slot list is non-empty. -/
theorem placedRun_defaultMeta_iff (db : List ULDDBEntry) (st : EngineState)
    (u : ULD) (hmeta : defaultMeta st) :
    (placedRun db st u).isSome = true ↔
      (resolvedWidth db u.id = 1 ∧ u.type = ULDType.ANY ∧
        st.freeSlots ≠ []) := by
  unfold placedRun
  have h1 : 1 ≤ resolvedWidth db u.id := one_le_resolvedWidth db u.id
  rcases htype : u.type with _ | _ | _
  · rw [candidatesOf_main_defaultMeta st u hmeta htype, findRun_nil]
    simp [htype]
  · rw [candidatesOf_lower_defaultMeta st u hmeta htype, findRun_nil]
    simp [htype]
  · rw [candidatesOf_any_defaultMeta st u hmeta htype]
    have hiff : resolvedWidth db u.id = 1 ↔
        (resolvedWidth db u.id).toNat = 1 := by omega
    rcases Nat.lt_or_ge (resolvedWidth db u.id).toNat 2 with hW | hW
    · have hWeq : (resolvedWidth db u.id).toNat = 1 := by omega
      rw [hWeq]
      cases hfree : st.freeSlots with
      | nil =>
          rw [findRun_nil]
          simp
      | cons c cs =>
          rw [findRun_one_cons]
          simp [hiff, hWeq, htype]
    · rw [findRun_none_of_zero_index st.slots
        (fun p => (hmeta p).2.1) _ hW]
      simp only [Option.isSome_none, Bool.false_eq_true, false_iff]
      rintro ⟨hw1, -, -⟩
      omega

/-! ## Width-resolver lemmas -/

/-- Spec-side reading of "the entry's prefix is a literal prefix of the
identifier": the identifier's characters extend the entry's by some tail. -/
def matchesId (e : ULDDBEntry) (uldId : String) : Prop :=
  ∃ t, uldId.data = e.pfx.data ++ t

instance (e : ULDDBEntry) (uldId : String) : Decidable (matchesId e uldId) :=
  decidable_of_iff (strStartsWith uldId e.pfx = true)
    (isPrefixOf_iff_exists_append e.pfx.data uldId.data)

theorem strStartsWith_iff_matchesId (e : ULDDBEntry) (uldId : String) :
    strStartsWith uldId e.pfx = true ↔ matchesId e uldId :=
  isPrefixOf_iff_exists_append e.pfx.data uldId.data

theorem getULDWidth_cons (e : ULDDBEntry) (db : List ULDDBEntry)
    (uldId : String) :
    getULDWidth (e :: db) uldId =
      if strStartsWith uldId e.pfx = true then e.widthSlots
      else getULDWidth db uldId := rfl

theorem getULDWidth_no_match (uldId : String) :
    ∀ db : List ULDDBEntry, (∀ e ∈ db, ¬ matchesId e uldId) →
      getULDWidth db uldId = 1 := by
  intro db
  induction db with
  | nil => intro _; rfl
  | cons e db ih =>
      intro h
      unfold getULDWidth
      rw [if_neg, ih (fun e' he' => h e' (List.mem_cons_of_mem e he'))]
      intro hs
      exact h e (List.mem_cons_self e db)
        ((strStartsWith_iff_matchesId e uldId).mp hs)

theorem getULDWidth_first_match (uldId : String) (e : ULDDBEntry)
    (post : List ULDDBEntry) :
    ∀ pre : List ULDDBEntry, (∀ e' ∈ pre, ¬ matchesId e' uldId) →
      matchesId e uldId →
      getULDWidth (pre ++ e :: post) uldId = e.widthSlots := by
  intro pre
  induction pre with
  | nil =>
      intro _ he
      rw [List.nil_append, getULDWidth_cons,
        if_pos ((strStartsWith_iff_matchesId e uldId).mpr he)]
  | cons e' pre ih =>
      intro hpre he
      rw [List.cons_append, getULDWidth_cons]
      rw [if_neg, ih (fun x hx => hpre x (List.mem_cons_of_mem e' hx)) he]
      intro hs
      exact hpre e' (List.mem_cons_self e' pre)
        ((strStartsWith_iff_matchesId e' uldId).mp hs)

/-! ## Claim C7 -/

/-- **C7** (confirmed). Width resolution returns the declared width of the
first catalog entry (in catalog order) whose prefix literally starts the
identifier, and 1 when no entry matches; for the catalog
`[("LD", 2), ("LD3", 1)]` the identifier `"LD3001"` resolves to 2, and the
empty catalog yields 1 — resolution never fails (`getULDWidth` is total). -/
theorem C7_width_resolution (db : List ULDDBEntry) (uldId : String) :
    (∀ pre e post, db = pre ++ e :: post → matchesId e uldId →
      (∀ e' ∈ pre, ¬ matchesId e' uldId) →
      getULDWidth db uldId = e.widthSlots) ∧
    ((∀ e ∈ db, ¬ matchesId e uldId) → getULDWidth db uldId = 1) ∧
    getULDWidth [{ pfx := "LD", widthSlots := 2 },
      { pfx := "LD3", widthSlots := 1 }] "LD3001" = 2 ∧
    getULDWidth [] uldId = 1 := by
  refine ⟨?_, getULDWidth_no_match uldId db, by decide, rfl⟩
  rintro pre e post rfl he hpre
  exact getULDWidth_first_match uldId e post pre hpre he

/-- Witness for C7: the general clauses applied at the spec's own example
catalog `[("LD", 2), ("LD3", 1)]` with identifier `"LD3001"`, and at the
empty catalog. -/
theorem C7_width_resolution_witness :
    getULDWidth [{ pfx := "LD", widthSlots := 2 },
      { pfx := "LD3", widthSlots := 1 }] "LD3001" = 2 ∧
    getULDWidth [] "LD3001" = 1 := by
  constructor
  · exact
      (C7_width_resolution [{ pfx := "LD", widthSlots := 2 },
        { pfx := "LD3", widthSlots := 1 }] "LD3001").1
      [] { pfx := "LD", widthSlots := 2 } [{ pfx := "LD3", widthSlots := 1 }]
      rfl (by decide) (by intro e' he'; simp at he')
  · exact (C7_width_resolution [] "LD3001").2.2.2

/-! ## Claim C9 -/

/-- The catalog of C9's counterexample: an ordinary entry followed by an
empty-prefix entry with a different width. -/
def exCat9 : List ULDDBEntry :=
  [{ pfx := "LD", widthSlots := 2 }, { pfx := "", widthSlots := 5 }]

/-- **C9, counterexample.** The claim as stated — an empty-prefix entry's
width is returned "for every unit identifier whatsoever" — fails: in
`exCat9` the entry with empty prefix (width 5) is in the catalog, yet
`"LD3001"` resolves to 2, because the earlier `"LD"` entry matches first. -/
theorem C9_counterexample :
    ({ pfx := "", widthSlots := 5 } : ULDDBEntry) ∈ exCat9 ∧
    ({ pfx := "", widthSlots := 5 } : ULDDBEntry).pfx = "" ∧
    getULDWidth exCat9 "LD3001" = 2 ∧
    getULDWidth exCat9 "LD3001" ≠
      ({ pfx := "", widthSlots := 5 } : ULDDBEntry).widthSlots := by
  refine ⟨by decide, rfl, by decide, by decide⟩

/-- **C9** (corrected). An empty-prefix catalog entry matches every
identifier, so resolution never proceeds past the first such entry (all
later entries are unreachable), and every identifier **not matched by an
earlier entry** resolves to that entry's declared width. -/
theorem C9_empty_prefix_entry (db1 db2 : List ULDDBEntry) (e : ULDDBEntry)
    (uldId : String) (he : e.pfx = "") :
    getULDWidth (db1 ++ e :: db2) uldId = getULDWidth (db1 ++ [e]) uldId ∧
    ((∀ e' ∈ db1, ¬ matchesId e' uldId) →
      getULDWidth (db1 ++ e :: db2) uldId = e.widthSlots) := by
  have hmatch : matchesId e uldId := by
    refine ⟨uldId.data, ?_⟩
    rw [he]
    rfl
  constructor
  · induction db1 with
    | nil =>
        rw [List.nil_append, List.nil_append, getULDWidth_cons,
          getULDWidth_cons,
          if_pos ((strStartsWith_iff_matchesId e uldId).mpr hmatch),
          if_pos ((strStartsWith_iff_matchesId e uldId).mpr hmatch)]
    | cons e' db1 ih =>
        rw [List.cons_append, List.cons_append, getULDWidth_cons,
          getULDWidth_cons]
        split
        · rfl
        · exact ih
  · intro hpre
    exact getULDWidth_first_match uldId e db2 db1 hpre hmatch

/-- Witness for C9's amended claim: in `exCat9` the empty-prefix entry
captures the identifier `"M1X"` (which no earlier entry matches), and the
entries after it are irrelevant. -/
theorem C9_empty_prefix_entry_witness :
    getULDWidth exCat9 "M1X" = 5 ∧
    getULDWidth exCat9 "LD3001" =
      getULDWidth [{ pfx := "LD", widthSlots := 2 },
        { pfx := "", widthSlots := 5 }] "LD3001" := by
  constructor
  · exact (C9_empty_prefix_entry [{ pfx := "LD", widthSlots := 2 }] []
      { pfx := "", widthSlots := 5 } "M1X" rfl).2 (by decide)
  · exact (C9_empty_prefix_entry [{ pfx := "LD", widthSlots := 2 }] []
      { pfx := "", widthSlots := 5 } "LD3001" rfl).1

/-! ## Claim C10 -/

/-- **C10** (confirmed). The clamp in `main` makes the placement width
positive — any catalog width ≤ 0 resolves to 1 — and the per-slot weight
share written by a placement divides by exactly that clamped width, so the
divisor is always ≥ 1 and never zero. -/
theorem C10_width_clamp (db : List ULDDBEntry) (uldId : String) :
    1 ≤ resolvedWidth db uldId ∧
    (getULDWidth db uldId ≤ 0 → resolvedWidth db uldId = 1) ∧
    (∀ (st : EngineState) (u : ULD) (r : List Nat) (p : Nat),
      u.id = uldId → placedRun db st u = some r → p ∈ r →
      ((processULD db st u).slots p).occupantWeight =
        u.weight / ((resolvedWidth db uldId : Int) : ℚ)) := by
  refine ⟨one_le_resolvedWidth db uldId, ?_, ?_⟩
  · intro h
    have heq : resolvedWidth db uldId =
        if getULDWidth db uldId ≤ 0 then 1 else getULDWidth db uldId := rfl
    rw [heq, if_pos h]
  · rintro st u r p rfl h hp
    rw [processULD_placed db st u r h]
    show (placeOn u (resolvedWidth db u.id) st.slots r p).occupantWeight = _
    rw [placeOn_mem u _ st.slots r p hp]

/-! ## Claim C2 -/

/-- **C2** (confirmed). In the program as executed by `main` — where the
slot vectors are freshly value-constructed (every deck name empty, every
index 0) and `assignSpecialSlots` is never invoked — the unit processed at
step `k` is placed if and only if its clamped width is 1, its affinity is
`ANY`, and the free-slot list is non-empty when it is processed; otherwise
(in particular for every `MAIN`- or `LOWER`-affinity unit, and for every
unit of clamped width ≥ 2) the recorded outcome is `UNASSIGNED`. -/
theorem C2_executed_main_placement (db : List ULDDBEntry) (m l : Nat)
    (units : List ULD) (k : Nat) (h : k < units.length) :
    ((placedRun db (runEngine db m l (units.take k))
        (units.get ⟨k, h⟩)).isSome = true ↔
      (resolvedWidth db (units.get ⟨k, h⟩).id = 1 ∧
        (units.get ⟨k, h⟩).type = ULDType.ANY ∧
        (runEngine db m l (units.take k)).freeSlots ≠ [])) ∧
    ((runEngine db m l (units.take (k + 1))).report.getLast? =
        some ((units.get ⟨k, h⟩).id, "UNASSIGNED") ↔
      ¬ (placedRun db (runEngine db m l (units.take k))
          (units.get ⟨k, h⟩)).isSome = true) := by
  have hmeta := defaultMeta_runEngine db m l (units.take k)
  constructor
  · exact placedRun_defaultMeta_iff db _ (units.get ⟨k, h⟩) hmeta
  · rw [runEngine_take_succ db m l units k h]
    rcases hr : placedRun db (runEngine db m l (units.take k))
        (units.get ⟨k, h⟩) with _ | r
    · rw [processULD_unplaced _ _ _ hr]
      simp [List.getLast?_concat]
    · rw [processULD_placed _ _ _ r hr]
      have hdeck : (placeOn (units.get ⟨k, h⟩)
          (resolvedWidth db (units.get ⟨k, h⟩).id)
          (runEngine db m l (units.take k)).slots r (r.headD 0)).deckName =
          "" :=
        (placeOn_meta _ _ _ r (r.headD 0)).1.trans (hmeta (r.headD 0)).1
      have hidx : (placeOn (units.get ⟨k, h⟩)
          (resolvedWidth db (units.get ⟨k, h⟩).id)
          (runEngine db m l (units.take k)).slots r (r.headD 0)).index =
          0 :=
        (placeOn_meta _ _ _ r (r.headD 0)).2.1.trans (hmeta (r.headD 0)).2.1
      have hne : ("" ++ "[" ++ toString ((0 : Int) + 1) ++ "]") ≠
          "UNASSIGNED" := by decide
      simp only [List.getLast?_concat, Option.isSome_some,
        Option.some.injEq, Prod.mk.injEq, hdeck, hidx]
      constructor
      · rintro ⟨-, habs⟩
        exact absurd habs hne
      · intro hn
        exact absurd trivial hn

/-- A width-1 `ANY` unit used by the C2 witness. -/
def exULDA : ULD := { id := "A", weight := 5 }

/-- Witness for C2: one `ANY` unit of width 1 on a one-slot pool — the two
equivalences of C2, instantiated there. -/
theorem C2_executed_main_placement_witness :
    ((placedRun [] (runEngine [] 1 0 ([exULDA].take 0))
        ([exULDA].get ⟨0, by decide⟩)).isSome = true ↔
      (resolvedWidth [] ([exULDA].get ⟨0, by decide⟩).id = 1 ∧
        ([exULDA].get ⟨0, by decide⟩).type = ULDType.ANY ∧
        (runEngine [] 1 0 ([exULDA].take 0)).freeSlots ≠ [])) ∧
    ((runEngine [] 1 0 ([exULDA].take 1)).report.getLast? =
        some (([exULDA].get ⟨0, by decide⟩).id, "UNASSIGNED") ↔
      ¬ (placedRun [] (runEngine [] 1 0 ([exULDA].take 0))
          ([exULDA].get ⟨0, by decide⟩)).isSome = true) :=
  C2_executed_main_placement [] 1 0 [exULDA] 0 (by decide)

/-! ## Claim C1 -/

theorem window_headD (cands : List Nat) (i w : Nat) (hw : 1 ≤ w)
    (hi : i < cands.length) (d : Nat) :
    ((cands.drop i).take w).headD d = cands.get ⟨i, hi⟩ := by
  obtain ⟨w', rfl⟩ : ∃ w', w = w' + 1 := ⟨w - 1, by omega⟩
  rw [List.drop_eq_getElem_cons hi, List.take_succ_cons, List.headD_cons]
  rfl

/-- **C1, counterexample.** The engine in the source is pure first-fit and
never consults the score.  On a free three-slot pool with arms
`10, 20, 30` (target reference arm = their mean, 20), a width-1 `ANY` unit
of weight 100 is placed on run `[0]`, whose score is `|10 - 20| = 10`,
although the valid run `[1]` scores `|20 - 20| = 0 < 10` — so the chosen
run's score is **not** minimal, contradicting the claim as stated. -/
theorem C1_counterexample :
    placedRun [] exState3 exULD = some [0] ∧
    specValidRun [] exState3 exULD [1] ∧
    runScore exState3 exULD 20 [1] < runScore exState3 exULD 20 [0] := by
  have h1 : runScore exState3 exULD 20 [1] = 0 := by
    norm_num [runScore, exState3, exULD, exSlots3]
  have h0 : runScore exState3 exULD 20 [0] = 10 := by
    norm_num [runScore, exState3, exULD, exSlots3]
  refine ⟨by decide, ⟨1, by decide, by decide⟩, ?_⟩
  rw [h1, h0]
  norm_num

/-- **C1** (corrected).  What the engine actually does: it selects the
*first* valid run in the candidate enumeration — the window at the least
offset `i` such that the window of `resolvedWidth` candidates starting at
`i` is index-consecutive, every smaller offset being invalid — and since
candidates are sorted ascending by slot index, the chosen run's starting
slot index is ≤ the starting index of every valid run.  Scores play no
part in the choice. -/
theorem C1_first_fit (db : List ULDDBEntry) (st : EngineState) (u : ULD)
    (r : List Nat) (h : placedRun db st u = some r) :
    (∃ i, validRunAt st.slots (resolvedWidth db u.id).toNat
        (candidatesOf st u) i ∧
      r = ((candidatesOf st u).drop i).take (resolvedWidth db u.id).toNat ∧
      ∀ j, j < i → ¬ validRunAt st.slots (resolvedWidth db u.id).toNat
        (candidatesOf st u) j) ∧
    ∀ r', specValidRun db st u r' →
      (st.slots (r.headD 0)).index ≤ (st.slots (r'.headD 0)).index := by
  obtain ⟨i, hvi, hrw, hmin⟩ := findRun_eq_some st.slots
    (resolvedWidth db u.id).toNat (candidatesOf st u) r h
  refine ⟨⟨i, hvi, hrw, hmin⟩, ?_⟩
  rintro r' ⟨i', hvi', hrw'⟩
  have hw : 1 ≤ (resolvedWidth db u.id).toNat :=
    one_le_resolvedWidth_toNat db u.id
  have hi : i < (candidatesOf st u).length := by
    have := hvi.1
    omega
  have hi' : i' < (candidatesOf st u).length := by
    have := hvi'.1
    omega
  have hle : i ≤ i' := by
    by_contra hgt
    exact hmin i' (by omega) hvi'
  rw [hrw, hrw', window_headD _ i _ hw hi 0, window_headD _ i' _ hw hi' 0]
  haveI : IsRefl Nat (slotIdxLE st.slots) := ⟨fun a => le_refl _⟩
  exact (candidatesOf_sorted st u).rel_get_of_le
    (Fin.mk_le_mk.mpr hle)

/-- Witness for the corrected C1: the placement of `exULD` on `exState3`
instantiates the first-fit description — run `[0]` is the window at offset
0, and its starting index is minimal among all valid runs. -/
theorem C1_first_fit_witness :
    (∃ i, validRunAt exState3.slots (resolvedWidth [] exULD.id).toNat
        (candidatesOf exState3 exULD) i ∧
      ([0] : List Nat) =
        ((candidatesOf exState3 exULD).drop i).take
          (resolvedWidth [] exULD.id).toNat ∧
      ∀ j, j < i → ¬ validRunAt exState3.slots
        (resolvedWidth [] exULD.id).toNat (candidatesOf exState3 exULD) j) ∧
    ∀ r', specValidRun [] exState3 exULD r' →
      (exState3.slots (([0] : List Nat).headD 0)).index ≤
        (exState3.slots (r'.headD 0)).index :=
  C1_first_fit [] exState3 exULD [0] (by decide)

/-! ## Claim C3 -/

/-- A concrete aircraft profile with a non-empty main deck and no explicit
restriction counts — the failing input for C3. -/
def exAircraft : Aircraft :=
  { model := "TEST", mainDeck := { slots := 3, slotArms := [10, 20, 30] } }

/-- **C3** (code bug).  The fore/aft restriction rule exists in the source
only inside `assignSpecialSlots`, whose local slot vectors (second
conjunct: first slot `NOSE`, last slot `TAIL`) are discarded when the
function returns — its net effect on the aircraft is the identity (first
conjunct) — and `main` never calls it anyway: the pool the program actually
places into has every slot `NORMAL` (third conjunct).  The "fixed from then
on" half of the claim does hold: placement never changes a slot's
restriction class (fourth conjunct). -/
theorem C3_restriction_rule_dead :
    (∀ ac : Aircraft, assignSpecialSlots ac = ac) ∧
    ((assignSpecialSlotsMainLocal exAircraft).map Slot.slotType =
      [SlotType.NOSE, SlotType.NORMAL, SlotType.TAIL]) ∧
    (∀ p, ((initState 3 0).slots p).slotType = SlotType.NORMAL) ∧
    (∀ (db : List ULDDBEntry) (st : EngineState) (u : ULD) (p : Nat),
      ((processULD db st u).slots p).slotType = (st.slots p).slotType) := by
  refine ⟨fun ac => rfl, by decide, fun p => rfl, ?_⟩
  intro db st u p
  exact (processULD_meta db st u p).2.2.2

/-! ## Claim C8 -/

/-- **C8** (confirmed). When no valid contiguous run of the required width
exists for a unit, the engine records an `UNASSIGNED` outcome and mutates
nothing: the whole state is unchanged except for the appended report entry
(in particular every slot's occupancy, occupant id and weight share, the
free-slot list, and the running weight and moment are identical), and the
loop simply proceeds to the next unit.  The free-slot hypothesis is the
invariant `main` maintains (`freeSlots` holds only unoccupied slots). -/
theorem C8_unassigned_no_mutation (db : List ULDDBEntry) (st : EngineState)
    (u : ULD) (hfree : ∀ p ∈ st.freeSlots, (st.slots p).occupied = false)
    (hnorun : ∀ r, ¬ specValidRun db st u r) :
    processULD db st u =
      { st with report := st.report ++ [(u.id, "UNASSIGNED")] } := by
  have hnone : placedRun db st u = none := by
    rcases hp : placedRun db st u with _ | r
    · rfl
    · obtain ⟨i, hv, hrw, -⟩ := findRun_eq_some st.slots
        (resolvedWidth db u.id).toNat (candidatesOf st u) r hp
      exact absurd ⟨i, hv, hrw⟩ (hnorun r)
  rw [processULD_unplaced db st u hnone]
  have hfilter : (st.freeSlots.filter fun p =>
      (st.slots p).occupied = false) = st.freeSlots :=
    List.filter_eq_self.mpr fun p hp => by simp [hfree p hp]
  rw [hfilter]

/-- A `MAIN`-affinity unit used by the C8 witness. -/
def exULDMain : ULD := { id := "M", weight := 1, type := ULDType.MAIN }

/-- Witness for C8: on the empty pool no run exists for `exULDMain`, and
processing it only appends the `UNASSIGNED` record. -/
theorem C8_unassigned_no_mutation_witness :
    processULD [] (initState 0 0) exULDMain =
      { initState 0 0 with
          report := (initState 0 0).report ++
            [(exULDMain.id, "UNASSIGNED")] } := by
  refine C8_unassigned_no_mutation [] (initState 0 0) exULDMain ?_ ?_
  · intro p hp
    simp [initState] at hp
  · rintro r ⟨i, ⟨hle, -⟩, -⟩
    have hc : (candidatesOf (initState 0 0) exULDMain).length = 0 := rfl
    rw [hc] at hle
    have hw := one_le_resolvedWidth_toNat [] exULDMain.id
    omega

/-- A placed run is drawn from the free-slot list (candidates are a
filtered, re-ordered view of `freeSlots`). -/
theorem placedRun_subset_freeSlots (db : List ULDDBEntry) (st : EngineState)
    (u : ULD) (r : List Nat) (h : placedRun db st u = some r) :
    ∀ p ∈ r, p ∈ st.freeSlots := by
  obtain ⟨i, -, hrw, -⟩ := findRun_eq_some st.slots
    (resolvedWidth db u.id).toNat (candidatesOf st u) r h
  intro p hp
  rw [hrw] at hp
  have hpc : p ∈ candidatesOf st u :=
    List.mem_of_mem_drop (List.mem_of_mem_take hp)
  exact ((mem_candidatesOf st u p).mp hpc).1

/-- In any state the placement loop reaches, membership in `freeSlots`
really does mean the slot is unoccupied. -/
theorem mem_freeSlots_unoccupied (db : List ULDDBEntry) (m l : Nat)
    (units : List ULD) (p : Nat)
    (hp : p ∈ (runEngine db m l units).freeSlots) :
    ((runEngine db m l units).slots p).occupied = false := by
  have h := goodState_runEngine db m l units
  rw [h, List.mem_filter] at hp
  simpa using hp.2

/-! ## Claim C4 -/

/-- **C4** (confirmed). At every point of the run (after any prefix of the
unit list): every slot is either free, or occupied by one of the units with
occupant weight share equal to that unit's weight divided by its clamped
width; and no step ever touches a slot that is already occupied — the slot
(occupancy, occupant, share) is carried over unchanged — because candidate
runs are drawn only from the currently-free slots. -/
theorem C4_no_double_occupancy (db : List ULDDBEntry) (m l : Nat)
    (units : List ULD) :
    (∀ k p, ((runEngine db m l (units.take k)).slots p).occupied = false ∨
      ∃ u ∈ units,
        ((runEngine db m l (units.take k)).slots p).occupantId = u.id ∧
        ((runEngine db m l (units.take k)).slots p).occupantWeight =
          u.weight / ((resolvedWidth db u.id : Int) : ℚ)) ∧
    (∀ k, k < units.length → ∀ p,
      ((runEngine db m l (units.take k)).slots p).occupied = true →
      (runEngine db m l (units.take (k + 1))).slots p =
        (runEngine db m l (units.take k)).slots p) := by
  constructor
  · intro k
    refine foldl_processULD_inv db
      (fun st => ∀ p, (st.slots p).occupied = false ∨
        ∃ u ∈ units, (st.slots p).occupantId = u.id ∧
          (st.slots p).occupantWeight =
            u.weight / ((resolvedWidth db u.id : Int) : ℚ))
      (units.take k) (initState m l) (fun p => Or.inl rfl) ?_
    intro s u hu hP p
    rcases hplaced : placedRun db s u with _ | r
    · rw [processULD_unplaced db s u hplaced]
      exact hP p
    · have hslots : (processULD db s u).slots =
          placeOn u (resolvedWidth db u.id) s.slots r := by
        rw [processULD_placed db s u r hplaced]
      rw [hslots]
      by_cases hp : p ∈ r
      · rw [placeOn_mem u _ s.slots r p hp]
        exact Or.inr ⟨u, List.mem_of_mem_take hu, rfl, rfl⟩
      · rw [placeOn_not_mem u _ s.slots r p hp]
        exact hP p
  · intro k h p hocc
    rw [runEngine_take_succ db m l units k h]
    rcases hplaced : placedRun db (runEngine db m l (units.take k))
        (units.get ⟨k, h⟩) with _ | r
    · rw [processULD_unplaced _ _ _ hplaced]
    · rw [processULD_placed _ _ _ r hplaced]
      show placeOn _ _ _ r p = _
      refine placeOn_not_mem _ _ _ r p fun hp => ?_
      have hfree := mem_freeSlots_unoccupied db m l (units.take k) p
        (placedRun_subset_freeSlots db _ _ r hplaced p hp)
      rw [hocc] at hfree
      exact absurd hfree (by decide)

/-- Witness for C4: after the single width-1 unit `exULDA` is placed on the
one-slot pool, slot 0 is accounted for (occupied by `exULDA` with share
`5 / 1`), and with a second unit in the list the already-occupied slot 0 is
carried over untouched by the next step. -/
theorem C4_no_double_occupancy_witness :
    (((runEngine [] 1 0 ([exULDA, exULDMain].take 1)).slots 0).occupied =
        false ∨
      ∃ u ∈ [exULDA, exULDMain],
        ((runEngine [] 1 0 ([exULDA, exULDMain].take 1)).slots 0).occupantId =
          u.id ∧
        ((runEngine [] 1 0
            ([exULDA, exULDMain].take 1)).slots 0).occupantWeight =
          u.weight / ((resolvedWidth [] u.id : Int) : ℚ)) ∧
    ((runEngine [] 1 0 ([exULDA, exULDMain].take 2)).slots 0 =
      (runEngine [] 1 0 ([exULDA, exULDMain].take 1)).slots 0) :=
  ⟨(C4_no_double_occupancy [] 1 0 [exULDA, exULDMain]).1 1 0,
    (C4_no_double_occupancy [] 1 0 [exULDA, exULDMain]).2 1 (by decide) 0
      (by decide)⟩

/-! ## Claim C5 -/

/-- **C5** (confirmed). In the program as executed, every placed unit's run
consists of exactly `resolvedWidth` distinct slots, with consecutive
indices (each adjacent pair differs by exactly one), and all on the same
deck — here every slot of `main`'s pool carries the same (default) deck
name, so no accepted run can span two decks. -/
theorem C5_run_shape (db : List ULDDBEntry) (m l : Nat) (units : List ULD)
    (k : Nat) (h : k < units.length) (r : List Nat)
    (hr : placedRun db (runEngine db m l (units.take k))
      (units.get ⟨k, h⟩) = some r) :
    r.length = (resolvedWidth db (units.get ⟨k, h⟩).id).toNat ∧
    r.Nodup ∧
    consecutiveRun (runEngine db m l (units.take k)).slots r = true ∧
    (∀ p ∈ r, ∀ q ∈ r,
      ((runEngine db m l (units.take k)).slots p).deckName =
        ((runEngine db m l (units.take k)).slots q).deckName) := by
  obtain ⟨i, ⟨hle, hcons⟩, hrw, -⟩ := findRun_eq_some
    (runEngine db m l (units.take k)).slots
    (resolvedWidth db (units.get ⟨k, h⟩).id).toNat
    (candidatesOf (runEngine db m l (units.take k)) (units.get ⟨k, h⟩)) r hr
  have hmeta := defaultMeta_runEngine db m l (units.take k)
  refine ⟨?_, ?_, ?_, ?_⟩
  · rw [hrw, List.length_take, List.length_drop]
    omega
  · have hsub : List.Sublist r
        (candidatesOf (runEngine db m l (units.take k))
          (units.get ⟨k, h⟩)) := by
      rw [hrw]
      exact (List.take_sublist _ _).trans (List.drop_sublist _ _)
    exact hsub.nodup (candidatesOf_nodup _ _
      (freeSlots_nodup_runEngine db m l (units.take k)))
  · rw [hrw]
    exact hcons
  · intro p _ q _
    exact (hmeta p).1.trans (hmeta q).1.symm

/-- Witness for C5: the placement of `exULDA` on a two-slot pool — its run
`[0]` has length `1 = resolvedWidth`, no duplicates, is consecutive, and
lies on a single deck. -/
theorem C5_run_shape_witness :
    ([0] : List Nat).length =
      (resolvedWidth [] (([exULDA].get ⟨0, by decide⟩)).id).toNat ∧
    ([0] : List Nat).Nodup ∧
    consecutiveRun (runEngine [] 2 0 ([exULDA].take 0)).slots [0] = true ∧
    (∀ p ∈ ([0] : List Nat), ∀ q ∈ ([0] : List Nat),
      ((runEngine [] 2 0 ([exULDA].take 0)).slots p).deckName =
        ((runEngine [] 2 0 ([exULDA].take 0)).slots q).deckName) :=
  C5_run_shape [] 2 0 [exULDA] 0 (by decide) [0] (by decide)

/-! ## Claim C6 -/

/-- **C6** (confirmed). When a unit `u` is placed on a run `r`: the run has
exactly the clamped width many slots; each of them becomes occupied with
occupant id `u.id` and weight share `u.weight / width`; every other slot is
untouched; the running weight grows by exactly `u.weight`; and the running
moment grows by exactly `u.weight` times the balance arm of the **first**
slot of the run (not the mean arm of the run). -/
theorem C6_placement_effects (db : List ULDDBEntry) (st : EngineState)
    (u : ULD) (r : List Nat) (h : placedRun db st u = some r) :
    r.length = (resolvedWidth db u.id).toNat ∧
    (∀ p ∈ r, (processULD db st u).slots p =
      { st.slots p with
          occupied := true
          occupantId := u.id
          occupantWeight := u.weight /
            ((resolvedWidth db u.id : Int) : ℚ) }) ∧
    (∀ p, p ∉ r → (processULD db st u).slots p = st.slots p) ∧
    ((processULD db st u).currentWeight = st.currentWeight + u.weight ∧
      (processULD db st u).currentMoment =
        st.currentMoment + u.weight * (st.slots (r.headD 0)).arm) := by
  obtain ⟨i, ⟨hle, -⟩, hrw, -⟩ := findRun_eq_some st.slots
    (resolvedWidth db u.id).toNat (candidatesOf st u) r h
  refine ⟨?_, ?_, ?_, ?_, ?_⟩
  · rw [hrw, List.length_take, List.length_drop]
    omega
  · intro p hp
    rw [processULD_placed db st u r h]
    show placeOn u (resolvedWidth db u.id) st.slots r p = _
    exact placeOn_mem u _ st.slots r p hp
  · intro p hp
    rw [processULD_placed db st u r h]
    show placeOn u (resolvedWidth db u.id) st.slots r p = _
    exact placeOn_not_mem u _ st.slots r p hp
  · rw [processULD_placed db st u r h]
  · rw [processULD_placed db st u r h]
    show st.currentMoment + u.weight *
        (placeOn u (resolvedWidth db u.id) st.slots r (r.headD 0)).arm = _
    rw [(placeOn_meta u (resolvedWidth db u.id) st.slots r (r.headD 0)).2.2.1]

/-- Witness for C6: placing `exULD` (weight 100, width 1) on `exState3`
puts the hypothesis and the weight/moment updates at a concrete input —
the moment grows by `100 * 10`, the arm of slot 0, the run's first slot. -/
theorem C6_placement_effects_witness :
    placedRun [] exState3 exULD = some [0] ∧
    ((processULD [] exState3 exULD).currentWeight =
        exState3.currentWeight + exULD.weight ∧
      (processULD [] exState3 exULD).currentMoment =
        exState3.currentMoment +
          exULD.weight * (exState3.slots (([0] : List Nat).headD 0)).arm) :=
  ⟨by decide, (C6_placement_effects [] exState3 exULD [0] (by decide)).2.2.2⟩

/-- Witness for C10: a catalog declaring width 0 for everything still
yields divisor 1, and the concrete placement of `exULD` on `exState3`
stores share `100 / 1`. -/
theorem C10_width_clamp_witness :
    resolvedWidth [{ pfx := "", widthSlots := 0 }] "U" = 1 ∧
    ((processULD [] exState3 exULD).slots 0).occupantWeight =
      exULD.weight / ((resolvedWidth [] exULD.id : Int) : ℚ) := by
  constructor
  · exact (C10_width_clamp [{ pfx := "", widthSlots := 0 }] "U").2.1
      (by decide)
  · exact (C10_width_clamp [] "U").2.2 exState3 exULD [0] 0 rfl (by decide)
      (by decide)

end LoadCalc
